import Mathlib

set_option maxRecDepth 4000

/-!
Shallow embedding of the med-deck-enrichment extraction pipeline
(scripts/extract_deck.py) together with proofs about the claims of its
specification.  Pure Python functions become Lean functions on Nat / List
Char; a raised Python exception is modelled as none (or an Except error);
filesystem effects of the orchestrator are modelled as an explicit event
trace.  Several scanners use a structural fuel argument chosen strictly
larger than the input length by their wrapper, so the fuel-exhaustion case is
unreachable; it is noted at each definition.
-/

/-- Field separator constant FIELD_SEP from the source. -/
def FIELD_SEP : Char := '\x1f'

/-- Index of the text field in notes.flds. -/
def IDX_TEXT : Nat := 0

/-- Index of the extra field in notes.flds. -/
def IDX_EXTRA : Nat := 1

/-- Index of the optional one-by-one marker field in notes.flds. -/
def IDX_ONE_BY_ONE : Nat := 16

/-- Whitespace test modelling the Python regex class backslash-s and
str.strip for str inputs, restricted to the Latin-1 range; characters outside
this range never occur in the inputs the claims below evaluate. -/
def isPySpace (c : Char) : Bool :=
  c == ' ' || c == '\t' || c == '\n' || c == '\r' || c == '\x0b' || c == '\x0c' ||
  c == '\x1c' || c == '\x1d' || c == '\x1e' || c == '\x1f' || c == '\x85' || c == '\xa0'

/-- Consume an exact literal prefix; some rest on success, none otherwise. -/
def splitLiteral : List Char → List Char → Option (List Char)
  | s, [] => some s
  | [], _ :: _ => none
  | c :: s, l :: ls => if c == l then splitLiteral s ls else none

/-- Consume a literal prefix case-insensitively (the literal is given in
lower case); returns the consumed original characters and the rest. -/
def splitLiteralCI : List Char → List Char → Option (List Char × List Char)
  | s, [] => some ([], s)
  | [], _ :: _ => none
  | c :: s, l :: ls =>
    if c.toLower == l then
      match splitLiteralCI s ls with
      | some (t, r) => some (c :: t, r)
      | none => none
    else none

/-- Model of RE_HTML_TAG.sub applied with the empty replacement, where
RE_HTML_TAG is the generic tag pattern (an angle bracket, one or more
non-closing characters, a closing angle bracket): strip every such tag,
scanning left to right.  Fuel-indexed; the wrapper supplies fuel greater than
the input length, so fuel 0 is unreachable. -/
def stripTagsF : Nat → List Char → List Char
  | 0, _ => []
  | _ + 1, [] => []
  | fuel + 1, c :: rest =>
    if c == '<' then
      match rest.takeWhile (fun d => d != '>'), rest.dropWhile (fun d => d != '>') with
      | _ :: _, '>' :: r => stripTagsF fuel r
      | _, _ => c :: stripTagsF fuel rest
    else c :: stripTagsF fuel rest

/-- RE_HTML_TAG stripping at the top level. -/
def stripTags (cs : List Char) : List Char := stripTagsF (cs.length + 1) cs

/-- Placeholder written by _save_img for occurrence index i: a NUL sentinel,
the letters IMG, the decimal index, and a closing NUL sentinel. -/
def placeholder (i : Nat) : List Char :=
  '\x00' :: 'I' :: 'M' :: 'G' :: (toString i).data ++ ['\x00']

/-- Tail of RE_IMG_TAG after the literal src: optional whitespace, an equals
sign, optional whitespace, a quote (single or double), a nonempty run of
non-quote characters (the capture group), a quote, then a lazy scan to the
closing angle bracket.  Returns (consumed original characters, capture group,
rest). -/
def imgTailAfterSrc (s : List Char) : Option (List Char × List Char × List Char) :=
  let w1 := s.takeWhile isPySpace
  match s.dropWhile isPySpace with
  | '=' :: s2 =>
    let w2 := s2.takeWhile isPySpace
    match s2.dropWhile isPySpace with
    | q :: s4 =>
      if q == '"' || q == '\'' then
        let g := s4.takeWhile (fun d => d != '"' && d != '\'')
        match s4.dropWhile (fun d => d != '"' && d != '\''), g with
        | q2 :: s6, _ :: _ =>
          let mid := s6.takeWhile (fun d => d != '>')
          match s6.dropWhile (fun d => d != '>') with
          | '>' :: s8 => some (w1 ++ '=' :: w2 ++ q :: g ++ q2 :: mid ++ ['>'], g, s8)
          | _ => none
        | _, _ => none
      else none
    | [] => none
  | _ => none

/-- Lazy scan (non-greedy, characters other than a closing angle bracket) for
the literal src (case-insensitively) followed by the attribute tail; on tail
failure the scan resumes one character further, as regex backtracking does,
and never crosses a closing angle bracket. -/
def findSrc : List Char → Option (List Char × List Char × List Char)
  | [] => none
  | c :: rest =>
    match splitLiteralCI (c :: rest) ['s', 'r', 'c'] with
    | some (srcChars, afterSrc) =>
      match imgTailAfterSrc afterSrc with
      | some (consumed, g, r) => some (srcChars ++ consumed, g, r)
      | none =>
        if c == '>' then none
        else
          match findSrc rest with
          | some (t, g, r) => some (c :: t, g, r)
          | none => none
    | none =>
      if c == '>' then none
      else
        match findSrc rest with
        | some (t, g, r) => some (c :: t, g, r)
        | none => none

/-- Attempt RE_IMG_TAG at the start of s: the literal img element opener
(case-insensitive), one whitespace character, then the lazy src scan.
Returns (full matched text, capture group, rest after the match). -/
def tryImgAt (s : List Char) : Option (List Char × List Char × List Char) :=
  match splitLiteralCI s ['<', 'i', 'm', 'g'] with
  | some (imgChars, s1) =>
    match s1 with
    | c :: s2 =>
      if isPySpace c then
        match findSrc s2 with
        | some (t, g, r) => some (imgChars ++ c :: t, g, r)
        | none => none
      else none
    | [] => none
  | none => none

/-- Model of RE_IMG_TAG.sub with the _save_img callback: scan left to right,
replace each match with its positional placeholder and record the matched
text in occurrence order.  Fuel-indexed; fuel 0 is unreachable from the
wrapper. -/
def imgSubF : Nat → List Char → Nat → List Char × List (List Char)
  | 0, _, _ => ([], [])
  | _ + 1, [], _ => ([], [])
  | fuel + 1, c :: rest, idx =>
    match tryImgAt (c :: rest) with
    | some (full, _, r) =>
      let p := imgSubF fuel r (idx + 1)
      (placeholder idx ++ p.1, full :: p.2)
    | none =>
      let p := imgSubF fuel rest idx
      (c :: p.1, p.2)

/-- Image protection pass of clean_text. -/
def imgSub (cs : List Char) : List Char × List (List Char) :=
  imgSubF (cs.length + 1) cs 0

/-- Decimal value of a digit string. -/
def digitsToNat (ds : List Char) : Nat :=
  ds.foldl (fun a c => 10 * a + (c.toNat - '0'.toNat)) 0

/-- Decode one character entity after an ampersand.  Model of Python
html.unescape restricted to the five core named entities and to
semicolon-terminated decimal references; the full HTML named-entity table is
elided, and every claim below evaluates the sanitizer only on inputs where
this restriction makes no difference (inputs without an ampersand, on which
html.unescape is the identity). -/
def tryEntity (s : List Char) : Option (Char × List Char) :=
  match splitLiteral s ['a', 'm', 'p', ';'] with
  | some r => some ('&', r)
  | none =>
  match splitLiteral s ['l', 't', ';'] with
  | some r => some ('<', r)
  | none =>
  match splitLiteral s ['g', 't', ';'] with
  | some r => some ('>', r)
  | none =>
  match splitLiteral s ['q', 'u', 'o', 't', ';'] with
  | some r => some ('"', r)
  | none =>
  match splitLiteral s ['a', 'p', 'o', 's', ';'] with
  | some r => some ('\'', r)
  | none =>
  match s with
  | '#' :: t =>
    match t.dropWhile Char.isDigit, t.takeWhile Char.isDigit with
    | ';' :: r, d :: ds => some (Char.ofNat (digitsToNat (d :: ds)), r)
    | _, _ => none
  | _ => none

/-- Entity-decoding pass of clean_text (see tryEntity for the modelled
subset).  Fuel-indexed; fuel 0 is unreachable from the wrapper. -/
def htmlUnescapeF : Nat → List Char → List Char
  | 0, _ => []
  | _ + 1, [] => []
  | fuel + 1, c :: rest =>
    if c == '&' then
      match tryEntity rest with
      | some (d, r) => d :: htmlUnescapeF fuel r
      | none => c :: htmlUnescapeF fuel rest
    else c :: htmlUnescapeF fuel rest

/-- Model of html.unescape (restricted as documented at tryEntity). -/
def htmlUnescape (cs : List Char) : List Char := htmlUnescapeF (cs.length + 1) cs

/-- Model of Python str.replace: replace every non-overlapping occurrence of
pat (nonempty in all uses here) left to right.  Fuel-indexed; fuel 0 is
unreachable from the wrapper. -/
def listReplaceF : Nat → List Char → List Char → List Char → List Char
  | 0, _, _, _ => []
  | _ + 1, [], _, _ => []
  | fuel + 1, c :: rest, pat, rep =>
    if !pat.isEmpty && pat.isPrefixOf (c :: rest) then
      rep ++ listReplaceF fuel ((c :: rest).drop pat.length) pat rep
    else c :: listReplaceF fuel rest pat rep

/-- Wrapper for listReplaceF. -/
def listReplace (s pat rep : List Char) : List Char :=
  listReplaceF (s.length + 1) s pat rep

/-- Placeholder restoration loop of clean_text: for each recorded match, in
occurrence order, replace its placeholder with the original matched text. -/
def restoreImgs : List Char → List (List Char) → Nat → List Char
  | t, [], _ => t
  | t, img :: rest, i => restoreImgs (listReplace t (placeholder i) img) rest (i + 1)

/-- Model of Python str.strip with no arguments. -/
def pyStrip (cs : List Char) : List Char :=
  ((cs.dropWhile isPySpace).reverse.dropWhile isPySpace).reverse

/-- Model of RE_MULTI_NEWLINE.sub: replace each maximal run of three or more
newlines by exactly two.  Fuel-indexed; fuel 0 is unreachable from the
wrapper. -/
def collapseNewlinesF : Nat → List Char → List Char
  | 0, _ => []
  | _ + 1, [] => []
  | fuel + 1, c :: rest =>
    if c == '\n' then
      let run := 1 + (rest.takeWhile (fun d => d == '\n')).length
      let tail := rest.dropWhile (fun d => d == '\n')
      (if 3 ≤ run then ['\n', '\n'] else List.replicate run '\n') ++ collapseNewlinesF fuel tail
    else c :: collapseNewlinesF fuel rest

/-- Wrapper for collapseNewlinesF. -/
def collapseNewlines (cs : List Char) : List Char :=
  collapseNewlinesF (cs.length + 1) cs

/-- Model of clean_text from scripts/extract_deck.py: protect image tags with
positional placeholders, decode character entities, strip remaining tags,
restore the placeholders by occurrence index, strip outer whitespace, and
collapse long newline runs. -/
def clean_text (raw : String) : String :=
  let p := imgSub raw.data
  let t2 := htmlUnescape p.1
  let t3 := stripTags t2
  let t4 := restoreImgs t3 p.2 0
  String.mk (collapseNewlines (pyStrip t4))

/-- Capture groups of RE_CLOZE_NUM, in occurrence order: the pattern is two
opening braces, the letter c, a nonempty digit run (the capture group), then
two colons.  Fuel-indexed; fuel 0 is unreachable from the wrapper. -/
def clozeMatchesF : Nat → List Char → List String
  | 0, _ => []
  | _ + 1, [] => []
  | fuel + 1, c :: rest =>
    match splitLiteral (c :: rest) ['\x7b', '\x7b', 'c'] with
    | some s1 =>
      match s1.dropWhile Char.isDigit, s1.takeWhile Char.isDigit with
      | ':' :: ':' :: s3, d :: ds => String.mk (d :: ds) :: clozeMatchesF fuel s3
      | _, _ => clozeMatchesF fuel rest
    | none => clozeMatchesF fuel rest

/-- Wrapper for clozeMatchesF. -/
def clozeMatches (cs : List Char) : List String := clozeMatchesF (cs.length + 1) cs

/-- Model of count_cloze_numbers: the number of distinct captured digit
strings (Python builds a set of the findall results and takes its size). -/
def count_cloze_numbers (text : String) : Nat :=
  (clozeMatches text.data).dedup.length

/-- Count following the specification words instead: the number of distinct
cloze-group NUMBERS, that is, distinct numeric values of the captured digit
strings.  Used to compare the code with the specification sentence. -/
def specDistinctClozeNumbers (text : String) : Nat :=
  ((clozeMatches text.data).map (fun s => digitsToNat s.data)).dedup.length

/-- Model of is_one_by_one_truthy: strip tags, strip whitespace, lowercase,
and test for emptiness. -/
def is_one_by_one_truthy (value : String) : Bool :=
  String.mk ((pyStrip (stripTags value.data)).map Char.toLower) != ""

/-- Model of Python str.split for a single-character separator: always yields
at least one (possibly empty) field. -/
def splitOnChar (sep : Char) : List Char → List (List Char)
  | [] => [[]]
  | c :: rest =>
    if c == sep then [] :: splitOnChar sep rest
    else
      match splitOnChar sep rest with
      | t :: ts => (c :: t) :: ts
      | [] => [[c]]

/-- Normalized note tuple appended to the notes list by main. -/
structure SourceNote where
  id : Int
  text : String
  extra : String
  num_cards : Nat
  one_by_one : Nat
  tags : String
deriving DecidableEq, Repr

/-- Model of the per-record transformation in main (lines 176-193): split the
separator-joined fields, read the text and extra fields at fixed positions
(an out-of-range read models the Python IndexError as none), read the
optional one-by-one field behind a length guard, then normalize.  The cloze
count is taken from the raw (unsanitized) text field, as in the source. -/
def transformNote (note_id : Int) (flds : String) (tags : String) : Option SourceNote :=
  let fields := splitOnChar FIELD_SEP flds.data
  match fields[IDX_TEXT]?, fields[IDX_EXTRA]? with
  | some raw_text, some raw_extra =>
    let raw_one_by_one := if IDX_ONE_BY_ONE < fields.length then fields.getD IDX_ONE_BY_ONE [] else []
    some { id := note_id
         , text := clean_text (String.mk raw_text)
         , extra := clean_text (String.mk raw_extra)
         , num_cards := count_cloze_numbers (String.mk raw_text)
         , one_by_one := if is_one_by_one_truthy (String.mk raw_one_by_one) then 1 else 0
         , tags := tags }
  | _, _ => none

/-- Model of the while loop of _read_varint.  The wrapper passes fuel equal
to data.length + 1 - pos, which the recursion maintains exactly, so fuel 0
arises precisely when pos is already past the end of the buffer — the same
condition under which Python raises IndexError, modelled as none. -/
def readVarintF : Nat → List Nat → Nat → Nat → Nat → Option (Nat × Nat)
  | 0, _, _, _, _ => none
  | fuel + 1, data, pos, value, shift =>
    match data[pos]? with
    | none => none
    | some b =>
      if b &&& 0x80 ≠ 0 then
        readVarintF fuel data (pos + 1) (value ||| ((b &&& 0x7F) <<< shift)) (shift + 7)
      else
        some (value ||| ((b &&& 0x7F) <<< shift), pos + 1)

/-- Model of _read_varint(data, pos): some (value, position one past the
consumed bytes), or none for the IndexError raised when the buffer ends
before a byte with a clear high bit is seen. -/
def _read_varint (data : List Nat) (pos : Nat) : Option (Nat × Nat) :=
  readVarintF (data.length + 1 - pos) data pos 0 0

/-- Reference varint encoder for the round-trip property (spec sections 4.1
and 8): emit the low seven bits of the value first, setting the continuation
bit on every byte except the last. -/
def writeVarint (n : Nat) : List Nat :=
  if n < 0x80 then [n]
  else (n &&& 0x7F ||| 0x80) :: writeVarint (n >>> 7)
termination_by n
decreasing_by
  simp only [Nat.shiftRight_eq_div_pow]
  exact Nat.div_lt_self (by omega) (by norm_num)

/-- Base-128 little-endian value of a byte list: the low seven bits of each
byte contribute at successive seven-bit shifts, first byte least
significant. -/
def varintVal : List Nat → Nat
  | [] => 0
  | b :: rest => (b &&& 0x7F) ||| (varintVal rest <<< 7)

/-- Model of the while loop of parse_media_manifest over the decompressed
manifest bytes: an association list from slot number to filename bytes plus
the final entry counter, or none for an uncaught Python IndexError.  The
wrapper passes fuel strictly greater than data.length - pos and every
iteration advances pos, so fuel 0 is unreachable. -/
def parseManifestF : Nat → List Nat → Nat → Nat → List (Nat × List Nat) →
    Option (List (Nat × List Nat) × Nat)
  | 0, _, _, entryIdx, acc => some (acc, entryIdx)
  | fuel + 1, data, pos, entryIdx, acc =>
    match data[pos]? with
    | none => some (acc, entryIdx)
    | some tag =>
      if tag ≠ 0x0A then some (acc, entryIdx)
      else
        match _read_varint data (pos + 1) with
        | none => none
        | some (outerLen, p1) =>
          let entryEnd := p1 + outerLen
          if p1 < entryEnd then
            match data[p1]? with
            | none => none
            | some inner =>
              if inner = 0x0A then
                match _read_varint data (p1 + 1) with
                | none => none
                | some (nameLen, p2) =>
                  parseManifestF fuel data entryEnd (entryIdx + 1)
                    (acc ++ [(entryIdx, (data.drop p2).take nameLen)])
              else parseManifestF fuel data entryEnd (entryIdx + 1) acc
          else parseManifestF fuel data entryEnd (entryIdx + 1) acc

/-- Model of parse_media_manifest applied to the decompressed manifest bytes
(the zstd decompression preceding the loop is applied by the caller, see
runPipeline).  Filenames stay as byte lists; the UTF-8 decoding of a
filename is not modelled, and no claim below depends on it. -/
def parse_media_manifest (data : List Nat) : Option (List (Nat × List Nat) × Nat) :=
  parseManifestF (data.length + 1) data 0 0 []

/-- Archive model: a list of (entry name, contents) pairs with distinct entry
names, matching a well-formed zip central directory. -/
structure ZipFile where
  entries : List (String × List Nat)
deriving DecidableEq

/-- Model of ZipFile.namelist. -/
def ZipFile.namelist (zf : ZipFile) : List String := zf.entries.map Prod.fst

/-- Model of ZipFile.read for an entry known to be present. -/
def ZipFile.read (zf : ZipFile) (name : String) : List Nat :=
  (zf.entries.lookup name).getD []

/-- Observable filesystem effects of the pipeline, in program order. -/
inductive Event where
  | createTemp
  | deleteTemp
  | mkdirOutput
  | writeTable
  | clearMediaDir
  | copyMedia
deriving DecidableEq, Repr

/-- Failure modes of the modelled pipeline. -/
inductive PipelineError where
  | noDatabaseFound
  | decompressFailed
  | queryFailed
  | fieldIndexError
  | manifestMissing
  | manifestIndexError
deriving DecidableEq, Repr

/-- Model of extract_collection_db (lines 128-145): the temporary file is
created first; zstd decompression is an abstract parameter (none models a
raised decompression error, after which the temporary file is NOT removed,
exactly as in the source, which only unlinks it in the no-database branch);
the no-database branch unlinks the temporary file and then raises. -/
def extract_collection_db (decompress : List Nat → Option (List Nat)) (zf : ZipFile) :
    List Event × Except PipelineError (List Nat) :=
  if "collection.anki21b" ∈ zf.namelist then
    match decompress (zf.read "collection.anki21b") with
    | some d => ([Event.createTemp], Except.ok d)
    | none => ([Event.createTemp], Except.error PipelineError.decompressFailed)
  else if "collection.anki2" ∈ zf.namelist then
    ([Event.createTemp], Except.ok (zf.read "collection.anki2"))
  else ([Event.createTemp, Event.deleteTemp], Except.error PipelineError.noDatabaseFound)

/-- Model of main (lines 148-245) as an event trace plus outcome.  The
sqlite query against the temporary database and zstd decompression are
abstract parameters (none models a raised exception); the try/finally around
the query deletes the temporary file on both of its outcomes.  Per-file
media resolution and copying after the manifest is decoded are abstracted
into the clearMediaDir and copyMedia events: no claim depends on their
per-file detail. -/
def runPipeline (decompress : List Nat → Option (List Nat))
    (query : List Nat → Option (List (Int × String × String)))
    (zf : ZipFile) : List Event × Except PipelineError Unit :=
  match extract_collection_db decompress zf with
  | (ev1, Except.error e) => (ev1, Except.error e)
  | (ev1, Except.ok dbBytes) =>
    match query dbBytes with
    | none => (ev1 ++ [Event.deleteTemp], Except.error PipelineError.queryFailed)
    | some rows =>
      let ev2 := ev1 ++ [Event.deleteTemp]
      match rows.mapM (fun r => transformNote r.1 r.2.1 r.2.2) with
      | none => (ev2, Except.error PipelineError.fieldIndexError)
      | some _notes =>
        let ev3 := ev2 ++ [Event.mkdirOutput, Event.writeTable]
        match zf.entries.lookup "media" with
        | none => (ev3, Except.error PipelineError.manifestMissing)
        | some mediaRaw =>
          match decompress mediaRaw with
          | none => (ev3, Except.error PipelineError.decompressFailed)
          | some mediaBytes =>
            match parse_media_manifest mediaBytes with
            | none => (ev3, Except.error PipelineError.manifestIndexError)
            | some _manifest =>
              (ev3 ++ [Event.clearMediaDir, Event.copyMedia], Except.ok ())

/-!
Helper lemmas: bit-level identities, characterizations of the varint reader,
and the manifest-loop invariant.
-/

theorem land128_of_lt {n : Nat} (h : n < 128) : n &&& 0x80 = 0 := by
  apply Nat.eq_of_testBit_eq
  intro i
  rw [Nat.testBit_land]
  have h80 : (0x80 : Nat) = 2 ^ 7 := rfl
  rw [h80, Nat.testBit_two_pow]
  rcases eq_or_ne (7 : Nat) i with rfl | hne
  · have : n < 2 ^ 7 := h
    simp [Nat.testBit_lt_two_pow this]
  · simp [hne]

theorem land127_of_lt {n : Nat} (h : n < 128) : n &&& 0x7F = n := by
  apply Nat.eq_of_testBit_eq
  intro i
  rw [Nat.testBit_land]
  have h127 : (0x7F : Nat) = 2 ^ 7 - 1 := rfl
  rw [h127, Nat.testBit_two_pow_sub_one]
  by_cases hi : i < 7
  · simp [hi]
  · have hle : (2 : Nat) ^ 7 ≤ 2 ^ i := Nat.pow_le_pow_right (by norm_num) (by omega)
    have : n < 2 ^ i := lt_of_lt_of_le h hle
    simp [hi, Nat.testBit_lt_two_pow this]

theorem lor128_land128_ne (x : Nat) : (x ||| 0x80) &&& 0x80 ≠ 0 := by
  intro hcontra
  have h7 : ((x ||| 0x80) &&& 0x80).testBit 7 = false := by rw [hcontra]; simp
  rw [Nat.testBit_land, Nat.testBit_lor] at h7
  have h80 : (0x80 : Nat) = 2 ^ 7 := rfl
  rw [h80, Nat.testBit_two_pow] at h7
  simp at h7

theorem lor128_land127 (x : Nat) : (x ||| 0x80) &&& 0x7F = x &&& 0x7F := by
  apply Nat.eq_of_testBit_eq
  intro i
  rw [Nat.testBit_land, Nat.testBit_lor, Nat.testBit_land]
  have h127 : (0x7F : Nat) = 2 ^ 7 - 1 := rfl
  have h80 : (0x80 : Nat) = 2 ^ 7 := rfl
  rw [h127, Nat.testBit_two_pow_sub_one, h80, Nat.testBit_two_pow]
  by_cases hi : i < 7
  · have : (7 : Nat) ≠ i := by omega
    simp [hi, this]
  · simp [hi]

theorem shiftLeft_lor_distrib (a b s : Nat) : (a ||| b) <<< s = (a <<< s) ||| (b <<< s) := by
  apply Nat.eq_of_testBit_eq
  intro i
  rw [Nat.testBit_lor, Nat.testBit_shiftLeft, Nat.testBit_shiftLeft, Nat.testBit_shiftLeft,
    Nat.testBit_lor]
  by_cases hi : i ≥ s <;> simp [hi]

theorem split7 (n : Nat) : (n &&& 0x7F) ||| ((n >>> 7) <<< 7) = n := by
  apply Nat.eq_of_testBit_eq
  intro i
  rw [Nat.testBit_lor, Nat.testBit_land, Nat.testBit_shiftLeft, Nat.testBit_shiftRight]
  have h127 : (0x7F : Nat) = 2 ^ 7 - 1 := rfl
  rw [h127, Nat.testBit_two_pow_sub_one]
  by_cases hi : i < 7
  · have : ¬ (i ≥ 7) := by omega
    simp [hi, this]
  · have h1 : (i ≥ 7) := by omega
    have h2 : 7 + (i - 7) = i := by omega
    simp [hi, h1, h2]

/-- Fold step for the value of a consumed byte list. -/
theorem varintVal_fold (b : Nat) (rest : List Nat) (value shift : Nat) :
    (value ||| ((b &&& 0x7F) <<< shift)) ||| (varintVal rest <<< (shift + 7)) =
      value ||| (varintVal (b :: rest) <<< shift) := by
  rw [Nat.lor_assoc]
  congr 1
  show (b &&& 0x7F) <<< shift ||| varintVal rest <<< (shift + 7) = varintVal (b :: rest) <<< shift
  have h1 : varintVal rest <<< (shift + 7) = (varintVal rest <<< 7) <<< shift := by
    rw [Nat.add_comm shift 7, Nat.shiftLeft_add]
  rw [h1, ← shiftLeft_lor_distrib]
  rfl

theorem readVarintF_some_spec : ∀ fuel data pos value shift v p',
    readVarintF fuel data pos value shift = some (v, p') →
    pos < p' ∧ p' ≤ data.length ∧
    v = value ||| (varintVal ((data.drop pos).take (p' - pos)) <<< shift) ∧
    (∀ j, pos ≤ j → j + 1 < p' → data.getD j 0 &&& 0x80 ≠ 0) ∧
    data.getD (p' - 1) 0 &&& 0x80 = 0 := by
  intro fuel
  induction fuel with
  | zero => intro data pos value shift v p' h; simp [readVarintF] at h
  | succ f ih =>
    intro data pos value shift v p' h
    rw [readVarintF] at h
    rcases hb : data[pos]? with _ | b
    · rw [hb] at h; simp at h
    · rw [hb] at h
      dsimp only at h
      have hpos : pos < data.length := by
        rcases List.getElem?_eq_some.mp hb with ⟨hlt, _⟩
        exact hlt
      have hgetd : data.getD pos 0 = b := by
        rw [List.getD_eq_getElem?_getD, hb]; rfl
      have hdrop : data.drop pos = b :: data.drop (pos + 1) := by
        rw [List.drop_eq_getElem_cons hpos]
        congr 1
        rcases List.getElem?_eq_some.mp hb with ⟨_, hv⟩
        exact hv
      by_cases hhigh : b &&& 0x80 ≠ 0
      · rw [if_pos hhigh] at h
        obtain ⟨h1, h2, h3, h4, h5⟩ := ih data (pos + 1) _ _ v p' h
        refine ⟨by omega, h2, ?_, ?_, h5⟩
        · rw [h3, hdrop]
          have htake : (b :: data.drop (pos + 1)).take (p' - pos) =
              b :: (data.drop (pos + 1)).take (p' - (pos + 1)) := by
            have : p' - pos = (p' - (pos + 1)) + 1 := by omega
            rw [this, List.take_succ_cons]
          rw [htake, varintVal_fold]
        · intro j hj1 hj2
          rcases Nat.eq_or_lt_of_le hj1 with rfl | hlt
          · rw [hgetd]; exact hhigh
          · exact h4 j (by omega) hj2
      · rw [if_neg hhigh] at h
        simp only [Option.some.injEq, Prod.mk.injEq] at h
        obtain ⟨hv, hp⟩ := h
        subst hp
        refine ⟨by omega, by omega, ?_, by omega, ?_⟩
        · rw [← hv, hdrop]
          have : pos + 1 - pos = 1 := by omega
          rw [this]
          simp [varintVal, Nat.zero_shiftLeft]
        · simp only [Nat.add_sub_cancel]
          rw [hgetd]
          omega

theorem read_varint_some_spec {data : List Nat} {pos v p' : Nat}
    (h : _read_varint data pos = some (v, p')) :
    pos < p' ∧ p' ≤ data.length ∧
    v = varintVal ((data.drop pos).take (p' - pos)) ∧
    (∀ j, pos ≤ j → j + 1 < p' → data.getD j 0 &&& 0x80 ≠ 0) ∧
    data.getD (p' - 1) 0 &&& 0x80 = 0 := by
  obtain ⟨h1, h2, h3, h4, h5⟩ := readVarintF_some_spec _ data pos 0 0 v p' h
  exact ⟨h1, h2, by rw [h3]; rw [Nat.shiftLeft_zero, Nat.zero_or], h4, h5⟩

theorem readVarintF_none_iff : ∀ fuel data pos value shift,
    data.length + 1 - pos ≤ fuel →
    (readVarintF fuel data pos value shift = none ↔
      ∀ i, pos ≤ i → i < data.length → data.getD i 0 &&& 0x80 ≠ 0) := by
  intro fuel
  induction fuel with
  | zero =>
    intro data pos value shift hf
    constructor
    · intro _ i hi1 hi2
      omega
    · intro _
      simp [readVarintF]
  | succ f ih =>
    intro data pos value shift hf
    rw [readVarintF]
    rcases hb : data[pos]? with _ | b
    · have hpos : data.length ≤ pos := by
        by_contra hc
        push_neg at hc
        rw [List.getElem?_eq_getElem hc] at hb
        simp at hb
      constructor
      · intro _ i hi1 hi2; omega
      · intro _; rfl
    · dsimp only
      have hpos : pos < data.length := by
        rcases List.getElem?_eq_some.mp hb with ⟨hlt, _⟩
        exact hlt
      have hgetd : data.getD pos 0 = b := by
        rw [List.getD_eq_getElem?_getD, hb]; rfl
      by_cases hhigh : b &&& 0x80 ≠ 0
      · rw [if_pos hhigh]
        rw [ih data (pos + 1) _ _ (by omega)]
        constructor
        · intro hall i hi1 hi2
          rcases Nat.eq_or_lt_of_le hi1 with rfl | hlt
          · rw [hgetd]; exact hhigh
          · exact hall i (by omega) hi2
        · intro hall i hi1 hi2
          exact hall i (by omega) hi2
      · rw [if_neg hhigh]
        constructor
        · intro hc; simp at hc
        · intro hall
          exact absurd (hall pos (le_refl pos) hpos) (by rw [hgetd]; exact fun hc => hc (by push_neg at hhigh; exact hhigh))

theorem read_varint_none_iff (data : List Nat) (pos : Nat) :
    (_read_varint data pos = none ↔
      ∀ i, pos ≤ i → i < data.length → data.getD i 0 &&& 0x80 ≠ 0) :=
  readVarintF_none_iff _ data pos 0 0 (le_refl _)

theorem writeVarint_length_pos (n : Nat) : 0 < (writeVarint n).length := by
  rw [writeVarint]
  by_cases h : n < 0x80 <;> simp [h]

theorem readVarintF_write : ∀ n pre rest value shift fuel,
    (pre ++ writeVarint n ++ rest).length + 1 - pre.length ≤ fuel →
    readVarintF fuel (pre ++ writeVarint n ++ rest) pre.length value shift =
      some (value ||| (n <<< shift), pre.length + (writeVarint n).length) := by
  intro n
  induction n using Nat.strong_induction_on with
  | _ n ih =>
    intro pre rest value shift fuel hf
    have hflen : 2 ≤ fuel := by
      have h1 : 0 < (writeVarint n).length := writeVarint_length_pos n
      simp [List.length_append] at hf
      omega
    obtain ⟨f, rfl⟩ : ∃ f, fuel = f + 1 := ⟨fuel - 1, by omega⟩
    by_cases hn : n < 0x80
    · rw [writeVarint, if_pos hn]
      rw [readVarintF]
      have hb : (pre ++ [n] ++ rest)[pre.length]? = some n := by
        rw [List.append_assoc, List.getElem?_append_right (le_refl pre.length)]
        simp
      rw [hb]
      dsimp only
      have hclear : ¬ (n &&& 0x80 ≠ 0) := by
        push_neg
        exact land128_of_lt hn
      rw [if_neg hclear, land127_of_lt hn]
      simp
    · rw [writeVarint, if_neg hn]
      have hn' : 128 ≤ n := by omega
      have hwl : (writeVarint n).length = (writeVarint (n >>> 7)).length + 1 := by
        rw [writeVarint, if_neg hn]
        simp
      have hrw : pre ++ ((n &&& 0x7F ||| 0x80) :: writeVarint (n >>> 7)) ++ rest =
          (pre ++ [n &&& 0x7F ||| 0x80]) ++ writeVarint (n >>> 7) ++ rest := by
        simp
      rw [hrw, readVarintF]
      have hb : ((pre ++ [n &&& 0x7F ||| 0x80]) ++ writeVarint (n >>> 7) ++ rest)[pre.length]? =
          some (n &&& 0x7F ||| 0x80) := by
        rw [List.append_assoc, List.append_assoc,
          List.getElem?_append_right (le_refl pre.length)]
        simp
      rw [hb]
      dsimp only
      have hhigh : (n &&& 0x7F ||| 0x80) &&& 0x80 ≠ 0 := lor128_land128_ne _
      rw [if_pos hhigh]
      have hdec : n >>> 7 < n := by
        rw [Nat.shiftRight_eq_div_pow]
        exact Nat.div_lt_self (by omega) (by norm_num)
      have hlen : ((pre ++ [n &&& 0x7F ||| 0x80]) ++ writeVarint (n >>> 7) ++ rest).length + 1 -
          (pre ++ [n &&& 0x7F ||| 0x80]).length ≤ f := by
        simp only [List.length_append, List.length_cons, List.length_nil] at hf ⊢
        rw [hwl] at hf
        omega
      have hstep := ih (n >>> 7) hdec (pre ++ [n &&& 0x7F ||| 0x80]) rest
        (value ||| ((n &&& 0x7F ||| 0x80) &&& 0x7F) <<< shift) (shift + 7) f hlen
      have hplen : (pre ++ [n &&& 0x7F ||| 0x80]).length = pre.length + 1 := by simp
      rw [hplen] at hstep
      rw [hstep]
      have hv : value ||| ((n &&& 0x7F ||| 0x80) &&& 0x7F) <<< shift ||| n >>> 7 <<< (shift + 7) =
          value ||| n <<< shift := by
        rw [lor128_land127, Nat.lor_assoc]
        congr 1
        have h1 : (n >>> 7) <<< (shift + 7) = ((n >>> 7) <<< 7) <<< shift := by
          rw [Nat.add_comm shift 7, Nat.shiftLeft_add]
        have h2 : n &&& 0x7F &&& 0x7F = n &&& 0x7F := by
          rw [Nat.land_assoc]
          congr 1
        rw [h1, h2, ← shiftLeft_lor_distrib, split7]
      have hl : pre.length + 1 + (writeVarint (n >>> 7)).length =
          pre.length + ((n &&& 0x7F ||| 0x80) :: writeVarint (n >>> 7)).length := by
        simp [List.length_cons]
        omega
      rw [hv, hl]

theorem read_varint_advances {data : List Nat} {pos v p' : Nat}
    (h : _read_varint data pos = some (v, p')) : pos < p' ∧ p' ≤ data.length :=
  ⟨(read_varint_some_spec h).1, (read_varint_some_spec h).2.1⟩

theorem parseManifestF_spec : ∀ fuel data pos idx acc m cnt,
    data.length - pos < fuel →
    parseManifestF fuel data pos idx acc = some (m, cnt) →
    idx ≤ cnt ∧ ∃ tail, m = acc ++ tail ∧
      List.Chain' (fun p q : Nat × List Nat => p.1 < q.1) tail ∧
      ∀ p ∈ tail, idx ≤ p.1 ∧ p.1 < cnt := by
  intro fuel
  induction fuel with
  | zero => intro data pos idx acc m cnt hf; omega
  | succ f ih =>
    intro data pos idx acc m cnt hf h
    rw [parseManifestF] at h
    rcases hb : data[pos]? with _ | tag
    · rw [hb] at h
      dsimp only at h
      simp only [Option.some.injEq, Prod.mk.injEq] at h
      obtain ⟨rfl, rfl⟩ := h
      exact ⟨le_refl _, [], by simp, by simp, by simp⟩
    · rw [hb] at h
      dsimp only at h
      have hpos : pos < data.length := by
        rcases List.getElem?_eq_some.mp hb with ⟨hlt, _⟩
        exact hlt
      by_cases htag : tag ≠ 0x0A
      · rw [if_pos htag] at h
        simp only [Option.some.injEq, Prod.mk.injEq] at h
        obtain ⟨rfl, rfl⟩ := h
        exact ⟨le_refl _, [], by simp, by simp, by simp⟩
      · rw [if_neg htag] at h
        rcases hv1 : _read_varint data (pos + 1) with _ | vp
        · rw [hv1] at h; simp at h
        · rw [hv1] at h
          obtain ⟨outerLen, p1⟩ := vp
          dsimp only at h
          obtain ⟨hadv1, hle1⟩ := read_varint_advances hv1
          have hfuel2 : data.length - (p1 + outerLen) < f := by omega
          by_cases hin : p1 < p1 + outerLen
          · rw [if_pos hin] at h
            rcases hb2 : data[p1]? with _ | inner
            · rw [hb2] at h; simp at h
            · rw [hb2] at h
              dsimp only at h
              by_cases hinner : inner = 0x0A
              · rw [if_pos hinner] at h
                rcases hv2 : _read_varint data (p1 + 1) with _ | np
                · rw [hv2] at h; simp at h
                · rw [hv2] at h
                  obtain ⟨nameLen, p2⟩ := np
                  dsimp only at h
                  obtain ⟨hcnt, tail', htl, hchain, hbnd⟩ := ih data (p1 + outerLen) (idx + 1) _ m cnt hfuel2 h
                  refine ⟨by omega, (idx, (data.drop p2).take nameLen) :: tail', ?_, ?_, ?_⟩
                  · rw [htl]; simp
                  · rcases tail' with _ | ⟨hd, tl⟩
                    · simp
                    · rw [List.chain'_cons]
                      have := hbnd hd (by simp)
                      exact ⟨by omega, hchain⟩
                  · intro p hp
                    rcases List.mem_cons.mp hp with rfl | hmem
                    · exact ⟨le_refl _, by omega⟩
                    · have := hbnd p hmem
                      exact ⟨by omega, this.2⟩
              · rw [if_neg hinner] at h
                obtain ⟨hcnt, tail', htl, hchain, hbnd⟩ := ih data (p1 + outerLen) (idx + 1) _ m cnt hfuel2 h
                refine ⟨by omega, tail', htl, hchain, ?_⟩
                intro p hp
                have := hbnd p hp
                exact ⟨by omega, this.2⟩
          · rw [if_neg hin] at h
            obtain ⟨hcnt, tail', htl, hchain, hbnd⟩ := ih data (p1 + outerLen) (idx + 1) _ m cnt hfuel2 h
            refine ⟨by omega, tail', htl, hchain, ?_⟩
            intro p hp
            have := hbnd p hp
            exact ⟨by omega, this.2⟩

/-!
Claim theorems.  Each claim of the specification gets exactly one theorem;
corrected claims additionally get a counterexample, and every theorem with a
hypothesis gets a closed witness applying it at a concrete input.
-/

/-- Claim C1, counterexample: the claim says decoded slot numbers are exactly
0..count-1 with no gaps regardless of how many entries fail inner-field
decoding.  On this well-formed buffer (two structurally complete top-level
entries, the first with an empty payload and hence no recognizable inner
field) the decoder returns a mapping whose slots are [1] while the entry
count is 2, so the decoded slots are neither 0..1 nor 0..0: a skipped entry
leaves a gap in the mapping. -/
theorem manifest_slots_gap_cex :
    parse_media_manifest [0x0A, 0x00, 0x0A, 0x02, 0x0A, 0x00] = some ([(1, [])], 2) ∧
    [((1 : Nat), ([] : List Nat))].map Prod.fst ≠ List.range 2 ∧
    [((1 : Nat), ([] : List Nat))].map Prod.fst ≠ List.range 1 := by
  refine ⟨by decide, by decide, by decide⟩

/-- Claim C1 (amended): slot numbers are assigned purely positionally — the
decoded mapping lists slot numbers in strictly increasing order, each below
the final entry count; an entry lacking a recognizable inner field is absent
from the mapping (leaving a gap) while still advancing the slot counter, so
the decoded slots form a strictly increasing subset of 0..count-1 rather
than always being exactly 0..count-1. -/
theorem manifest_slots_positional (data : List Nat) (m : List (Nat × List Nat)) (cnt : Nat)
    (h : parse_media_manifest data = some (m, cnt)) :
    List.Chain' (fun p q : Nat × List Nat => p.1 < q.1) m ∧ ∀ p ∈ m, p.1 < cnt := by
  obtain ⟨_, tail, htl, hchain, hbnd⟩ :=
    parseManifestF_spec (data.length + 1) data 0 0 [] m cnt (by omega) h
  have hm : m = tail := by simpa using htl
  subst hm
  exact ⟨hchain, fun p hp => (hbnd p hp).2⟩

/-- Witness for Claim C1 at a one-entry manifest whose single entry decodes
to the filename bytes 0x61 0x62 at slot 0. -/
theorem manifest_slots_positional_witness :
    List.Chain' (fun p q : Nat × List Nat => p.1 < q.1) [(0, [0x61, 0x62])] ∧
    ∀ p ∈ [((0 : Nat), [0x61, 0x62])], p.1 < 1 :=
  manifest_slots_positional [0x0A, 0x04, 0x0A, 0x02, 0x61, 0x62] [(0, [0x61, 0x62])] 1 (by decide)

/-- Claim C2, counterexample: the claim says the decoder never raises and
stops silently when an entry's length prefix overruns the buffer.  On the
buffer 0x0A 0x05 (entry tag, declared length 5 with no bytes following) the
inner-field check indexes past the end of the buffer and the decoder raises
an IndexError (modelled as none) instead of returning the empty mapping; on
the buffer 0x0A (tag with no length byte) the length varint itself raises. -/
theorem manifest_overrun_raises_cex :
    parse_media_manifest [0x0A, 0x05] = none ∧ parse_media_manifest [0x0A] = none := by
  refine ⟨by decide, by decide⟩

/-- Claim C2 (amended): the decoder does stop silently — returning the
mapping built so far — when the buffer is exhausted at an entry boundary or
when an unexpected leading tag byte is encountered; but a length prefix that
overruns the buffer can raise an out-of-bounds error (see the
counterexample) rather than stopping silently. -/
theorem manifest_decoder_stops_silently (data : List Nat) (pos idx : Nat)
    (acc : List (Nat × List Nat)) (fuel : Nat) (hf : 0 < fuel)
    (h : data.length ≤ pos ∨ ∃ b, data[pos]? = some b ∧ b ≠ 0x0A) :
    parseManifestF fuel data pos idx acc = some (acc, idx) := by
  obtain ⟨f, rfl⟩ : ∃ f, fuel = f + 1 := ⟨fuel - 1, by omega⟩
  rw [parseManifestF]
  rcases h with hlen | ⟨b, hb, hne⟩
  · have : data[pos]? = none := by
      rw [List.getElem?_eq_none_iff]
      exact hlen
    rw [this]
  · rw [hb]
    dsimp only
    rw [if_pos hne]

/-- Witness for Claim C2: a buffer whose first byte is not the entry tag is
tolerated silently, yielding the mapping built so far. -/
theorem manifest_decoder_stops_silently_witness :
    parseManifestF 1 [0x05] 0 0 [] = some ([], 0) :=
  manifest_decoder_stops_silently [0x05] 0 0 [] 1 (by decide) (Or.inr ⟨5, by decide, by decide⟩)

/-- Claim C3: the varint decoder fails exactly when the buffer ends (from
the start offset) before a byte with a clear high bit is seen; otherwise it
returns the base-128 little-endian value of the consumed bytes and the
offset immediately past them (all consumed bytes except the last have the
high bit set, the last has it clear). -/
theorem varint_decode_contract (data : List Nat) (pos : Nat) :
    (_read_varint data pos = none ↔
      ∀ i, pos ≤ i → i < data.length → data.getD i 0 &&& 0x80 ≠ 0) ∧
    (∀ v p', _read_varint data pos = some (v, p') →
      pos < p' ∧ p' ≤ data.length ∧
      v = varintVal ((data.drop pos).take (p' - pos)) ∧
      (∀ j, pos ≤ j → j + 1 < p' → data.getD j 0 &&& 0x80 ≠ 0) ∧
      data.getD (p' - 1) 0 &&& 0x80 = 0) :=
  ⟨read_varint_none_iff data pos, fun _ _ h => read_varint_some_spec h⟩

/-- Witness for Claim C3 on the two-byte buffer 0x80 0x01, which decodes to
the value 128 consuming both bytes. -/
theorem varint_decode_contract_witness :
    0 < 2 ∧ 2 ≤ ([0x80, 0x01] : List Nat).length ∧
    (128 : Nat) = varintVal ((([0x80, 0x01] : List Nat).drop 0).take (2 - 0)) ∧
    (∀ j, 0 ≤ j → j + 1 < 2 → ([0x80, 0x01] : List Nat).getD j 0 &&& 0x80 ≠ 0) ∧
    ([0x80, 0x01] : List Nat).getD (2 - 1) 0 &&& 0x80 = 0 :=
  (varint_decode_contract [0x80, 0x01] 0).2 128 2 (by decide)

/-- Claim C4: encoding any non-negative integer with the reference varint
encoder and decoding at the offset where the encoding begins returns the
original value, consuming exactly the encoded byte count (Python integers
are unbounded, so no representable-bound side condition is needed). -/
theorem varint_round_trip (pre : List Nat) (n : Nat) (rest : List Nat) :
    _read_varint (pre ++ writeVarint n ++ rest) pre.length =
      some (n, pre.length + (writeVarint n).length) := by
  rw [_read_varint]
  rw [readVarintF_write n pre rest 0 0 _ (le_refl _)]
  rw [Nat.zero_or, Nat.shiftLeft_zero]

/-- Claim C5: the container loader prefers the newer entry name — when
collection.anki21b is present the produced database bytes are its
decompressed contents (whether or not the legacy entry is also present), and
when only collection.anki2 is present the produced bytes are that entry's
bytes unchanged. -/
theorem collection_db_encoding_preference
    (decompress : List Nat → Option (List Nat)) (zf : ZipFile) :
    (∀ d, "collection.anki21b" ∈ zf.namelist →
      decompress (zf.read "collection.anki21b") = some d →
      (extract_collection_db decompress zf).2 = Except.ok d) ∧
    ("collection.anki21b" ∉ zf.namelist → "collection.anki2" ∈ zf.namelist →
      (extract_collection_db decompress zf).2 = Except.ok (zf.read "collection.anki2")) := by
  constructor
  · intro d hmem hdec
    rw [extract_collection_db, if_pos hmem, hdec]
  · intro hnot hmem
    rw [extract_collection_db, if_neg hnot, if_pos hmem]

/-- Witness for Claim C5: an archive holding both entries yields the
decompressed newer entry, and a legacy-only archive yields the legacy bytes
unchanged. -/
theorem collection_db_encoding_preference_witness :
    (extract_collection_db (fun l => some (0 :: l))
      ⟨[("collection.anki21b", [1]), ("collection.anki2", [2])]⟩).2 = Except.ok [0, 1] ∧
    (extract_collection_db (fun l => some (0 :: l))
      ⟨[("collection.anki2", [2])]⟩).2 = Except.ok [2] := by
  constructor
  · exact (collection_db_encoding_preference _ _).1 [0, 1] (by decide) (by decide)
  · exact (collection_db_encoding_preference _ _).2 (by decide) (by decide)

/-- Claim C6: the loader fails with NoDatabaseFound exactly when neither
database entry name is present, and in that case the run aborts with only
the temporary-file events on its trace — no output table or media directory
is created or modified. -/
theorem no_database_aborts_without_output
    (decompress : List Nat → Option (List Nat))
    (query : List Nat → Option (List (Int × String × String))) (zf : ZipFile) :
    ((extract_collection_db decompress zf).2 = Except.error PipelineError.noDatabaseFound ↔
      ("collection.anki21b" ∉ zf.namelist ∧ "collection.anki2" ∉ zf.namelist)) ∧
    ("collection.anki21b" ∉ zf.namelist → "collection.anki2" ∉ zf.namelist →
      runPipeline decompress query zf =
        ([Event.createTemp, Event.deleteTemp], Except.error PipelineError.noDatabaseFound) ∧
      ∀ e ∈ (runPipeline decompress query zf).1,
        e ≠ Event.mkdirOutput ∧ e ≠ Event.writeTable ∧
        e ≠ Event.clearMediaDir ∧ e ≠ Event.copyMedia) := by
  by_cases h1 : "collection.anki21b" ∈ zf.namelist
  · constructor
    · constructor
      · intro hc
        rw [extract_collection_db, if_pos h1] at hc
        rcases hd : decompress (zf.read "collection.anki21b") with _ | d
        · rw [hd] at hc
          simp at hc
        · rw [hd] at hc
          simp at hc
      · rintro ⟨ha, _⟩
        exact absurd h1 ha
    · intro ha _
      exact absurd h1 ha
  · by_cases h2 : "collection.anki2" ∈ zf.namelist
    · constructor
      · constructor
        · intro hc
          rw [extract_collection_db, if_neg h1, if_pos h2] at hc
          simp at hc
        · rintro ⟨_, hb⟩
          exact absurd h2 hb
      · intro _ hb
        exact absurd h2 hb
    · have hext : extract_collection_db decompress zf =
          ([Event.createTemp, Event.deleteTemp], Except.error PipelineError.noDatabaseFound) := by
        rw [extract_collection_db, if_neg h1, if_neg h2]
      have hrun : runPipeline decompress query zf =
          ([Event.createTemp, Event.deleteTemp], Except.error PipelineError.noDatabaseFound) := by
        rw [runPipeline, hext]
      refine ⟨⟨fun _ => ⟨h1, h2⟩, fun _ => by rw [hext]⟩, fun _ _ => ⟨hrun, ?_⟩⟩
      rw [hrun]
      decide

/-- Witness for Claim C6 on an archive containing only a media entry. -/
theorem no_database_aborts_without_output_witness :
    runPipeline (fun l => some l) (fun _ => none) ⟨[("media", [])]⟩ =
      ([Event.createTemp, Event.deleteTemp], Except.error PipelineError.noDatabaseFound) ∧
    ∀ e ∈ (runPipeline (fun l => some l) (fun _ => none) ⟨[("media", [])]⟩).1,
      e ≠ Event.mkdirOutput ∧ e ≠ Event.writeTable ∧
      e ≠ Event.clearMediaDir ∧ e ≠ Event.copyMedia :=
  (no_database_aborts_without_output _ _ _).2 (by decide) (by decide)

/-- Claim C7, counterexample: the claim says the ephemeral decompressed
database storage is deleted on every exit path including decode failure.
When zstd decompression of the newer entry fails after the temporary file
has been created, extract_collection_db propagates the error without
unlinking, so the run's trace contains createTemp but no deleteTemp: the
temporary file leaks. -/
theorem temp_db_leak_cex :
    runPipeline (fun _ => none) (fun _ => none) ⟨[("collection.anki21b", [7])]⟩ =
      ([Event.createTemp], Except.error PipelineError.decompressFailed) ∧
    Event.deleteTemp ∉ ([Event.createTemp] : List Event) := by
  refine ⟨rfl, by decide⟩

/-- Claim C7 (amended): the temporary file is deleted immediately after the
record-query stage on every exit path of that stage — both query success and
query failure, via the try/finally — and it is also unlinked on the
no-database path; however, a decompression failure inside the container
loader, after the temporary file is created, leaks it (see the
counterexample). -/
theorem temp_db_deleted_after_query
    (decompress : List Nat → Option (List Nat))
    (query : List Nat → Option (List (Int × String × String))) (zf : ZipFile) :
    (∀ ev db, extract_collection_db decompress zf = (ev, Except.ok db) →
      Event.deleteTemp ∈ (runPipeline decompress query zf).1) ∧
    ((extract_collection_db decompress zf).2 = Except.error PipelineError.noDatabaseFound →
      Event.deleteTemp ∈ (runPipeline decompress query zf).1) := by
  constructor
  · intro ev db hext
    rw [runPipeline, hext]
    dsimp only
    split
    · simp
    · split
      · simp
      · split
        · simp
        · split
          · simp
          · split
            · simp
            · simp
  · intro hc
    by_cases h1 : "collection.anki21b" ∈ zf.namelist
    · exfalso
      rw [extract_collection_db, if_pos h1] at hc
      rcases hd : decompress (zf.read "collection.anki21b") with _ | d
      · rw [hd] at hc
        simp at hc
      · rw [hd] at hc
        simp at hc
    · by_cases h2 : "collection.anki2" ∈ zf.namelist
      · exfalso
        rw [extract_collection_db, if_neg h1, if_pos h2] at hc
        simp at hc
      · have hext : extract_collection_db decompress zf =
            ([Event.createTemp, Event.deleteTemp], Except.error PipelineError.noDatabaseFound) := by
          rw [extract_collection_db, if_neg h1, if_neg h2]
        rw [runPipeline, hext]
        dsimp only
        decide

/-- Witness for Claim C7: on a legacy-only archive whose query fails, the
trace still contains the deleteTemp event. -/
theorem temp_db_deleted_after_query_witness :
    Event.deleteTemp ∈
      (runPipeline (fun l => some l) (fun _ => none) ⟨[("collection.anki2", [2])]⟩).1 :=
  (temp_db_deleted_after_query _ _ _).1 [Event.createTemp] [2] rfl

/-- Claim C8: sanitizing the example field preserves the image markup
verbatim while the surrounding paragraph markup is removed. -/
theorem image_markup_preserved :
    clean_text "<p>See <img src='x.png'> here</p>" = "See <img src='x.png'> here" := by decide

/-- Claim C9, counterexample: the claim says num_cards equals the number of
distinct cloze-group NUMBERS.  The code counts distinct captured digit
strings, so a text containing both c1 and c01 cloze groups — the same
number 1 written with and without a leading zero — yields num_cards 2 while
the number of distinct numeric values is 1. -/
theorem cloze_leading_zero_cex :
    (transformNote 0 "\x7b\x7bc1::a\x7d\x7d\x7b\x7bc01::b\x7d\x7d\x1fE" "").map
        SourceNote.num_cards = some 2 ∧
    specDistinctClozeNumbers "\x7b\x7bc1::a\x7d\x7d\x7b\x7bc01::b\x7d\x7d" = 1 ∧
    ¬ (transformNote 0 "\x7b\x7bc1::a\x7d\x7d\x7b\x7bc01::b\x7d\x7d\x1fE" "").map
        SourceNote.num_cards =
      some (specDistinctClozeNumbers "\x7b\x7bc1::a\x7d\x7d\x7b\x7bc01::b\x7d\x7d") := by
  refine ⟨by decide, by decide, by decide⟩

/-- Claim C9 (amended): for every raw source record that transforms
successfully, num_cards equals the number of distinct captured digit
strings (not numeric values) of the cloze pattern, computed on the raw text
field — the field at position 0 of the separator split — before any
sanitization. -/
theorem num_cards_from_raw_text (note_id : Int) (flds tags : String) (note : SourceNote)
    (h : transformNote note_id flds tags = some note) :
    note.num_cards =
      count_cloze_numbers (String.mk ((splitOnChar FIELD_SEP flds.data).getD IDX_TEXT [])) := by
  simp only [transformNote] at h
  rcases h0 : (splitOnChar FIELD_SEP flds.data)[IDX_TEXT]? with _ | raw_text <;>
    rcases h1 : (splitOnChar FIELD_SEP flds.data)[IDX_EXTRA]? with _ | raw_extra <;>
      rw [h0, h1] at h <;> dsimp only at h
  · exact absurd h (by simp)
  · exact absurd h (by simp)
  · exact absurd h (by simp)
  · simp only [Option.some.injEq] at h
    subst h
    have : (splitOnChar FIELD_SEP flds.data).getD IDX_TEXT [] = raw_text := by
      rw [List.getD_eq_getElem?_getD, h0]
      rfl
    rw [this]

/-- Witness for Claim C9 on a record with two fields and no cloze
markup. -/
theorem num_cards_from_raw_text_witness :
    (SourceNote.mk 0 "hi" "there" 0 0 "").num_cards =
      count_cloze_numbers
        (String.mk ((splitOnChar FIELD_SEP ("hi\x1fthere" : String).data).getD IDX_TEXT [])) :=
  num_cards_from_raw_text 0 "hi\x1fthere" "" (SourceNote.mk 0 "hi" "there" 0 0 "") (by decide)

/-- Claim C10: a record whose separator-joined fields string splits into
fewer than two fields makes the note transformation fail with an
out-of-bounds error when reading the extra field at fixed position 1, while
any record with at least two fields transforms successfully — only the
optional one-by-one field at position 16 is guarded by a length check. -/
theorem short_record_transform_fails (note_id : Int) (flds tags : String) :
    ((splitOnChar FIELD_SEP flds.data).length < 2 → transformNote note_id flds tags = none) ∧
    (2 ≤ (splitOnChar FIELD_SEP flds.data).length →
      (transformNote note_id flds tags).isSome = true) := by
  constructor
  · intro h
    have h1 : (splitOnChar FIELD_SEP flds.data)[IDX_EXTRA]? = none := by
      rw [List.getElem?_eq_none_iff]
      show (splitOnChar FIELD_SEP flds.data).length ≤ 1
      omega
    simp only [transformNote]
    rcases h0 : (splitOnChar FIELD_SEP flds.data)[IDX_TEXT]? with _ | raw_text
    · rfl
    · rw [h1]
  · intro h
    have hlt0 : IDX_TEXT < (splitOnChar FIELD_SEP flds.data).length := by
      simp only [IDX_TEXT]
      omega
    have hlt1 : IDX_EXTRA < (splitOnChar FIELD_SEP flds.data).length := by
      simp only [IDX_EXTRA]
      omega
    simp only [transformNote]
    rw [List.getElem?_eq_getElem hlt0, List.getElem?_eq_getElem hlt1]
    rfl

/-- Witness for Claim C10: a separator-free record fails, a two-field
record succeeds. -/
theorem short_record_transform_fails_witness :
    transformNote 0 "abc" "" = none ∧ (transformNote 0 "a\x1fb" "").isSome = true := by
  constructor
  · exact (short_record_transform_fails 0 "abc" "").1 (by decide)
  · exact (short_record_transform_fails 0 "a\x1fb" "").2 (by decide)
